import Mathlib

/-
Verification of the api2go resource dispatch and response-assembly engine
(request.go) against its natural-language specification.

The Go code is shallowly embedded: Go maps become association lists with
replace-on-insert semantics, uint64 arithmetic becomes Nat with explicit
reduction modulo 2 ^ 64 where Go can wrap, fallible Go functions
returning (value, err) become Except values, and runtime panics
(division by zero) become a dedicated error constructor.  Handlers that
talk to a backend are embedded as pure functions over the backend's
responses and additionally return the trace of backend calls they make,
the status code they write, and the error they return.
-/

namespace Api2go

/-- Association-list lookup, mirroring a Go map read: the first binding
for the key wins (Go maps have at most one binding per key). -/
def assocLookup {α : Type} (l : List (String × α)) (k : String) : Option α :=
  match l with
  | [] => none
  | (k₁, v) :: rest => if k₁ = k then some v else assocLookup rest k

/-- Association-list insert, mirroring a Go map write: replaces the
existing binding for the key, otherwise appends. -/
def assocInsert {α : Type} (l : List (String × α)) (k : String) (v : α) :
    List (String × α) :=
  match l with
  | [] => [(k, v)]
  | (k₁, v₁) :: rest =>
    if k₁ = k then (k, v) :: rest else (k₁, v₁) :: assocInsert rest k v

/-- Embeds strconv.ParseUint(s, 10, 64): succeeds exactly on a nonempty
all-digit string whose value fits in 64 bits. -/
def parseUint (s : String) : Option Nat :=
  if s = "" then none
  else if s.data.all (fun c => c.isDigit) then
    let v := s.data.foldl (fun acc c => acc * 10 + (c.toNat - 48)) 0
    if v < 2 ^ 64 then some v else none
  else none

/-- Go runtime / library failures surfaced by the embedded code. -/
inductive GoError where
  | parseError
  | divideByZero
  | needDataObject
  | dataNotArray
  | entryInvalid
  | noIdField
  | notEditToMany
  | expectedFindOne (resName : String)
  | expectedCreatedObject (resName : String)
  | invalidStatusCode (status : Nat) (resName op : String)
  | backend (n : Nat)
deriving DecidableEq

/-- The four optional page query parameters (request.go, PaginationQueryParams). -/
structure PaginationQueryParams where
  number : String
  size : String
  offset : String
  limit : String
deriving DecidableEq

/-- Embeds PaginationQueryParams.IsValid (request.go lines 96-110). -/
def PaginationQueryParams.IsValid (p : PaginationQueryParams) : Bool :=
  if p.number = "" ∧ p.size = "" ∧ p.offset = "" ∧ p.limit = "" then false
  else if p.number ≠ "" ∧ p.size ≠ "" ∧ p.offset = "" ∧ p.limit = "" then true
  else if p.number = "" ∧ p.size = "" ∧ p.offset ≠ "" ∧ p.limit ≠ "" then true
  else false

/-- Presence and page parameter value of each pagination link produced by
GetLinks.  The URL of a link is requestURL plus the query string with the
one page parameter replaced; the field here records that replaced numeric
value, which is the semantic content of the link. -/
structure LinksOut where
  first : Option Nat
  prev : Option Nat
  next : Option Nat
  last : Option Nat
deriving DecidableEq

/-- Embeds PaginationQueryParams.GetLinks (request.go lines 112-203).
uint64 arithmetic wraps modulo 2 ^ 64 (number-1 with number=0 underflows;
offset+limit and count-limit can wrap).  Division by zero when size is
"0" panics in Go and is embedded as the divideByZero error.  Where Go
returns a partially filled map together with a non-nil error, the caller
discards the map, so the embedding returns only the error. -/
def PaginationQueryParams.GetLinks (p : PaginationQueryParams) (count : Nat) :
    Except GoError LinksOut :=
  let c := count % 2 ^ 64
  if p.number ≠ "" then
    match parseUint p.number with
    | none => .error .parseError
    | some number =>
      let base : LinksOut :=
        if p.number ≠ "1" then
          { first := some 1, prev := some ((number + (2 ^ 64 - 1)) % 2 ^ 64),
            next := none, last := none }
        else { first := none, prev := none, next := none, last := none }
      match parseUint p.size with
      | none => .error .parseError
      | some size =>
        if size = 0 then .error .divideByZero
        else
          let totalPages := c / size + (if c % size ≠ 0 then 1 else 0)
          if number ≠ totalPages then
            .ok { base with next := some ((number + 1) % 2 ^ 64), last := some totalPages }
          else .ok base
  else
    match parseUint p.offset with
    | none => .error .parseError
    | some offset =>
      match parseUint p.limit with
      | none => .error .parseError
      | some limit =>
        let base : LinksOut :=
          if p.offset ≠ "0" then
            { first := some 0,
              prev := some (if limit > offset then 0 else offset - limit),
              next := none, last := none }
          else { first := none, prev := none, next := none, last := none }
        if (offset + limit) % 2 ^ 64 < c then
          .ok { base with next := some ((offset + limit) % 2 ^ 64),
                          last := some ((c + (2 ^ 64 - limit)) % 2 ^ 64) }
        else .ok base

/-- Which backend path handleIndex takes. -/
inductive IndexAction where
  | paginated
  | findAll
  | errNoPaginatedFindAll
  | errNoFindAll
deriving DecidableEq

/-- Embeds the dispatch structure of resource.handleIndex (request.go
lines 382-415): valid pagination parameters require the
PaginatedFindAll capability, anything else falls through to FindAll. -/
def handleIndex (p : PaginationQueryParams) (hasPaginatedFindAll hasFindAll : Bool) :
    IndexAction :=
  if p.IsValid then
    if hasPaginatedFindAll then .paginated else .errNoPaginatedFindAll
  else if hasFindAll then .findAll else .errNoFindAll

/-- GetLinks computes the page total as quotient plus a carry for a
nonzero remainder; for a nonzero size this is the ceiling of count/size. -/
theorem totalPages_eq_ceil (c size : Nat) (h : size ≠ 0) :
    c / size + (if c % size ≠ 0 then 1 else 0) = (c + size - 1) / size := by
  have hpos : 0 < size := Nat.pos_of_ne_zero h
  have hdm := Nat.div_add_mod c size
  have hrlt : c % size < size := Nat.mod_lt _ hpos
  by_cases hr0 : c % size = 0
  · have hnum : c + size - 1 = size * (c / size) + (size - 1) := by omega
    simp only [hr0, ne_eq, not_true_eq_false, if_false, hnum,
      Nat.mul_add_div hpos, Nat.div_eq_of_lt (show size - 1 < size by omega)]
  · have hnum : c + size - 1 = size * (c / size + 1) + (c % size - 1) := by
      have hexp : size * (c / size + 1) = size * (c / size) + size := by ring
      omega
    simp only [ne_eq, hr0, not_false_eq_true, if_true, hnum,
      Nat.mul_add_div hpos, Nat.div_eq_of_lt (show c % size - 1 < size by omega)]

/-- C1 (amended): for a valid number/size pagination request on which
GetLinks succeeds, the link map contains first and prev exactly when the
number parameter is not the literal string "1", and contains next and
last exactly when the parsed number differs from
totalPages = ceil(count / size).  (The original claim keyed first/prev
on number > 1 and next/last on number < totalPages; the code compares
the raw string against "1" and the parsed number against totalPages for
inequality, see C1_counterexample.) -/
theorem C1_numberSizeLinks (p : PaginationQueryParams) (count number size : Nat)
    (m : LinksOut)
    (hmode : p.number ≠ "" ∧ p.size ≠ "" ∧ p.offset = "" ∧ p.limit = "")
    (hn : parseUint p.number = some number)
    (hs : parseUint p.size = some size)
    (hok : p.GetLinks count = .ok m) :
    ((m.first.isSome ∧ m.prev.isSome) ↔ p.number ≠ "1") ∧
    ((m.next.isSome ∧ m.last.isSome) ↔
      number ≠ (count % 2 ^ 64 + size - 1) / size) := by
  obtain ⟨hn1, hs1, -, -⟩ := hmode
  unfold PaginationQueryParams.GetLinks at hok
  rw [if_pos hn1, hn, hs] at hok
  simp only [] at hok
  by_cases hsz : size = 0
  · rw [if_pos hsz] at hok
    exact absurd hok (by simp)
  · rw [if_neg hsz] at hok
    rw [← totalPages_eq_ceil (count % 2 ^ 64) size hsz]
    by_cases h1 : p.number = "1" <;>
      by_cases h2 : number =
        (count % 2 ^ 64) / size + (if (count % 2 ^ 64) % size ≠ 0 then 1 else 0)
    · rw [if_neg (not_not_intro h1), if_neg (not_not_intro h2)] at hok
      cases hok
      simp [h1, h2]
    · rw [if_neg (not_not_intro h1), if_pos h2] at hok
      cases hok
      simp only [ne_eq, ite_not] at h2
      simp [h1, h2]
      exact h2
    · rw [if_pos h1, if_neg (not_not_intro h2)] at hok
      cases hok
      simp [h1, h2]
    · rw [if_pos h1, if_pos h2] at hok
      cases hok
      simp only [ne_eq, ite_not] at h2
      simp [h1, h2]
      exact h2

/-- C1 witness: page[number]=2, page[size]=1, count=5 gives first=1,
prev=1, next=3, last=5; both equivalences hold there. -/
theorem C1_witness :
    (((some 1 : Option Nat).isSome ∧ (some 1 : Option Nat).isSome) ↔
      ("2" : String) ≠ "1") ∧
    (((some 3 : Option Nat).isSome ∧ (some 5 : Option Nat).isSome) ↔
      (2 : Nat) ≠ (5 % 2 ^ 64 + 1 - 1) / 1) :=
  C1_numberSizeLinks ⟨"2", "1", "", ""⟩ 5 2 1 ⟨some 1, some 1, some 3, some 5⟩
    (by decide) (by rfl) (by rfl) (by rfl)

/-- C1 counterexample to the original claim.  With page[number]="0",
page[size]="1", count=1, GetLinks emits first and prev although
number > 1 is false (and prev underflows to 2^64-1).  With
page[number]="3", page[size]="2", count=2, totalPages = ceil(2/2) = 1
and GetLinks emits next and last although number < totalPages is
false. -/
theorem C1_counterexample :
    (PaginationQueryParams.GetLinks ⟨"0", "1", "", ""⟩ 1 =
        .ok { first := some 1, prev := some 18446744073709551615,
              next := some 1, last := some 1 } ∧
      parseUint "0" = some 0 ∧ ¬ (0 : Nat) > 1) ∧
    (PaginationQueryParams.GetLinks ⟨"3", "2", "", ""⟩ 2 =
        .ok { first := some 1, prev := some 2, next := some 4, last := some 1 } ∧
      parseUint "3" = some 3 ∧ parseUint "2" = some 2 ∧
      (2 + 2 - 1) / 2 = 1 ∧ ¬ (3 : Nat) < 1) :=
  ⟨⟨by rfl, by rfl, by decide⟩, ⟨by rfl, by rfl, by rfl, by rfl, by decide⟩⟩

/-- C2 (amended): for a valid offset/limit pagination request on which
GetLinks succeeds, the link map contains first (at offset 0) and prev
(at offset-limit, truncated at 0, i.e. max(0, offset-limit)) exactly
when the offset parameter is not the literal string "0", and contains
next (at (offset+limit) mod 2^64) and last (at (count-limit) mod 2^64)
exactly when (offset+limit) mod 2^64 < count.  (The original claim keyed
first/prev on offset ≠ 0 and used unwrapped arithmetic; the code
compares the raw string against "0" and wraps uint64 sums, see
C2_counterexample.) -/
theorem C2_offsetLimitLinks (p : PaginationQueryParams) (count offset limit : Nat)
    (m : LinksOut)
    (hmode : p.number = "" ∧ p.size = "" ∧ p.offset ≠ "" ∧ p.limit ≠ "")
    (ho : parseUint p.offset = some offset)
    (hl : parseUint p.limit = some limit)
    (hok : p.GetLinks count = .ok m) :
    (p.offset ≠ "0" → m.first = some 0 ∧ m.prev = some (offset - limit)) ∧
    (p.offset = "0" → m.first = none ∧ m.prev = none) ∧
    ((offset + limit) % 2 ^ 64 < count % 2 ^ 64 →
      m.next = some ((offset + limit) % 2 ^ 64) ∧
      m.last = some ((count % 2 ^ 64 + (2 ^ 64 - limit)) % 2 ^ 64)) ∧
    (count % 2 ^ 64 ≤ (offset + limit) % 2 ^ 64 → m.next = none ∧ m.last = none) := by
  obtain ⟨hN, -, ho1, hl1⟩ := hmode
  unfold PaginationQueryParams.GetLinks at hok
  rw [if_neg (not_not_intro hN), ho, hl] at hok
  simp only [] at hok
  have hprev : (if limit > offset then 0 else offset - limit) = offset - limit := by
    by_cases hlo : limit > offset
    · rw [if_pos hlo]
      omega
    · rw [if_neg hlo]
  by_cases h0 : p.offset = "0" <;>
    by_cases hc : (offset + limit) % 2 ^ 64 < count % 2 ^ 64
  · rw [if_neg (not_not_intro h0), if_pos hc] at hok
    cases hok
    simp [h0, hc, Nat.le_of_lt]
    omega
  · rw [if_neg (not_not_intro h0), if_neg hc] at hok
    cases hok
    simp [h0, hc]
    omega
  · rw [if_pos h0, if_pos hc] at hok
    cases hok
    simp [h0, hc, hprev]
    omega
  · rw [if_pos h0, if_neg hc] at hok
    cases hok
    simp [h0, hc, hprev]
    omega

/-- C2 witness: page[offset]=2, page[limit]=2, count=10 gives first=0,
prev=0, next=4, last=8; all four implications are exercised at their
satisfied sides. -/
theorem C2_witness :
    ((("2" : String) ≠ "0" →
        (some 0 : Option Nat) = some 0 ∧ (some 0 : Option Nat) = some (2 - 2)) ∧
      (("2" : String) = "0" →
        (some 0 : Option Nat) = none ∧ (some 0 : Option Nat) = none) ∧
      ((2 + 2) % 2 ^ 64 < 10 % 2 ^ 64 →
        (some 4 : Option Nat) = some ((2 + 2) % 2 ^ 64) ∧
        (some 8 : Option Nat) = some ((10 % 2 ^ 64 + (2 ^ 64 - 2)) % 2 ^ 64)) ∧
      (10 % 2 ^ 64 ≤ (2 + 2) % 2 ^ 64 →
        (some 4 : Option Nat) = none ∧ (some 8 : Option Nat) = none)) :=
  C2_offsetLimitLinks ⟨"", "", "2", "2"⟩ 10 2 2 ⟨some 0, some 0, some 4, some 8⟩
    (by decide) (by rfl) (by rfl) (by rfl)

/-- C2 counterexample to the original claim.  With page[offset]="00",
page[limit]="1", count=5, the parsed offset is 0 yet GetLinks emits
first and prev (the code compares the raw string against "0").  With
page[offset]="1", page[limit]=2^64-1, count=5, offset+limit = 2^64 is
not below count, yet the uint64 sum wraps to 0 < 5 and GetLinks emits
next (at 0) and last (at 6, while count-limit is negative). -/
theorem C2_counterexample :
    (PaginationQueryParams.GetLinks ⟨"", "", "00", "1"⟩ 5 =
        .ok { first := some 0, prev := some 0, next := some 1, last := some 4 } ∧
      parseUint "00" = some 0 ∧ ¬ (0 : Nat) ≠ 0) ∧
    (PaginationQueryParams.GetLinks ⟨"", "", "1", "18446744073709551615"⟩ 5 =
        .ok { first := some 0, prev := some 0, next := some 0, last := some 6 } ∧
      parseUint "1" = some 1 ∧
      parseUint "18446744073709551615" = some (2 ^ 64 - 1) ∧
      ¬ 1 + (2 ^ 64 - 1) < 5) :=
  ⟨⟨by rfl, by rfl, by decide⟩, ⟨by rfl, by rfl, by rfl, by decide⟩⟩

/-- C3: IsValid accepts exactly the two complete pagination modes;
every other combination of populated page parameters, including all
four empty, yields false, and handleIndex then takes the plain FindAll
path. -/
theorem C3_isValid_modes (p : PaginationQueryParams) (hasPag : Bool) :
    (p.IsValid = true ↔
      ((p.number ≠ "" ∧ p.size ≠ "" ∧ p.offset = "" ∧ p.limit = "") ∨
       (p.number = "" ∧ p.size = "" ∧ p.offset ≠ "" ∧ p.limit ≠ ""))) ∧
    (¬ ((p.number ≠ "" ∧ p.size ≠ "" ∧ p.offset = "" ∧ p.limit = "") ∨
        (p.number = "" ∧ p.size = "" ∧ p.offset ≠ "" ∧ p.limit ≠ "")) →
      p.IsValid = false ∧ handleIndex p hasPag true = .findAll) := by
  constructor
  · unfold PaginationQueryParams.IsValid
    split_ifs with hA hB hC <;> simp_all
  · intro hno
    have hfalse : p.IsValid = false := by
      unfold PaginationQueryParams.IsValid
      split_ifs with hA hB hC <;> simp_all
    refine ⟨hfalse, ?_⟩
    unfold handleIndex
    rw [hfalse]
    simp

/-- C3 witness: with all four page parameters empty, IsValid is false
and the index handler falls through to plain FindAll. -/
theorem C3_witness :
    PaginationQueryParams.IsValid ⟨"", "", "", ""⟩ = false ∧
    handleIndex ⟨"", "", "", ""⟩ true true = .findAll :=
  (C3_isValid_modes ⟨"", "", "", ""⟩ true).2 (by decide)

/-- The three facets a backend response exposes to the dispatcher, as
far as the verified claims consume them: Result (none embeds a nil Go
result, some embeds a valid resource object) and StatusCode.  Metadata
is not consumed by the verified paths. -/
structure SourceResponse where
  result : Option String
  status : Nat
deriving DecidableEq

/-- What an embedded handler does at its exit: respond with a document,
respond with a bare meta document (Delete at 200), write only a status
header, or return an error to the dispatcher boundary. -/
inductive HandlerOutcome where
  | respond (status : Nat) (result : Option String)
  | respondMeta (status : Nat)
  | writeHeader (status : Nat)
  | errorOut (e : GoError)
deriving DecidableEq

/-- Embeds the status switch at the end of resource.handleUpdate
(request.go lines 668-692), starting from the response of a successful
backend Update call.  The second component is the list of ids passed to
the additional FindOne calls this portion makes. -/
def handleUpdateStatusSwitch (resName id : String)
    (findOne : String → Except GoError SourceResponse)
    (response : SourceResponse) : HandlerOutcome × List String :=
  if response.status = 200 then
    match response.result with
    | some _ => (.respond 200 response.result, [])
    | none =>
      match findOne id with
      | .error e => (.errorOut e, [id])
      | .ok internalResponse =>
        match internalResponse.result with
        | none => (.errorOut (.expectedFindOne resName), [id])
        | some _ => (.respond 200 internalResponse.result, [id])
  else if response.status = 202 then (.writeHeader 202, [])
  else if response.status = 204 then (.writeHeader 204, [])
  else (.errorOut (.invalidStatusCode response.status resName "Update"), [])

/-- Embeds the tail of resource.handleCreate (request.go lines 573-593):
the Result must be a marshalable object, then the status switch runs
(201 responds, 204 and 202 write the header, anything else errors). -/
def handleCreateAfterCreate (resName : String) (response : SourceResponse) :
    HandlerOutcome :=
  match response.result with
  | none => .errorOut (.expectedCreatedObject resName)
  | some _ =>
    if response.status = 201 then .respond 201 response.result
    else if response.status = 204 then .writeHeader 204
    else if response.status = 202 then .writeHeader 202
    else .errorOut (.invalidStatusCode response.status resName "Create")

/-- Embeds the status switch of resource.handleDelete (request.go lines
892-907): 200 responds with a meta document, 202 and 204 write the
header, anything else errors. -/
def handleDeleteAfterDelete (resName : String) (response : SourceResponse) :
    HandlerOutcome :=
  if response.status = 200 then .respondMeta 200
  else if response.status = 202 then .writeHeader 202
  else if response.status = 204 then .writeHeader 204
  else .errorOut (.invalidStatusCode response.status resName "Delete")

/-- C4: when the backend Update returns status 200 with a nil Result,
handleUpdate makes exactly one additional FindOne call with the same id;
if that FindOne succeeds with a non-nil Result the handler responds 200
with that result, and if it succeeds with a nil Result the handler
returns an error instead of responding. -/
theorem C4_updateRefetch (resName id : String)
    (findOne : String → Except GoError SourceResponse)
    (response : SourceResponse)
    (h200 : response.status = 200) (hnil : response.result = none) :
    (handleUpdateStatusSwitch resName id findOne response).2 = [id] ∧
    (∀ r payload, findOne id = .ok r → r.result = some payload →
      (handleUpdateStatusSwitch resName id findOne response).1 =
        .respond 200 (some payload)) ∧
    (∀ r, findOne id = .ok r → r.result = none →
      (handleUpdateStatusSwitch resName id findOne response).1 =
        .errorOut (.expectedFindOne resName)) := by
  unfold handleUpdateStatusSwitch
  rw [if_pos h200, hnil]
  refine ⟨?_, ?_, ?_⟩
  · cases hfo : findOne id with
    | error e => simp [hfo]
    | ok r => cases hr : r.result <;> simp [hfo, hr]
  · intro r payload hfo hr
    simp [hfo, hr]
  · intro r hfo hr
    simp [hfo, hr]

/-- C4 witness: a backend whose FindOne returns an object makes the
re-fetch path respond 200 with that object after a 200/nil Update. -/
theorem C4_witness :
    (handleUpdateStatusSwitch "posts" "1"
      (fun _ => .ok ⟨some "obj", 200⟩) ⟨none, 200⟩).2 = ["1"] ∧
    (handleUpdateStatusSwitch "posts" "1"
      (fun _ => .ok ⟨some "obj", 200⟩) ⟨none, 200⟩).1 = .respond 200 (some "obj") :=
  have h := C4_updateRefetch "posts" "1"
    (fun _ => .ok ⟨some "obj", 200⟩) ⟨none, 200⟩ rfl rfl
  ⟨h.1, h.2.1 ⟨some "obj", 200⟩ "obj" rfl rfl⟩

/-- C5: a backend status code outside the allow-list of the operation
(Create: 201, 202, 204; Update: 200, 202, 204; Delete: 200, 202, 204)
makes the handler return the invalid-status-code error: no success
response and no header write happens. -/
theorem C5_statusAllowList (resName : String) (response : SourceResponse) :
    (response.result.isSome = true → response.status ∉ ([201, 202, 204] : List Nat) →
      handleCreateAfterCreate resName response =
        .errorOut (.invalidStatusCode response.status resName "Create")) ∧
    (response.status ∉ ([200, 202, 204] : List Nat) →
      ∀ id findOne, handleUpdateStatusSwitch resName id findOne response =
        (.errorOut (.invalidStatusCode response.status resName "Update"), [])) ∧
    (response.status ∉ ([200, 202, 204] : List Nat) →
      handleDeleteAfterDelete resName response =
        .errorOut (.invalidStatusCode response.status resName "Delete")) := by
  refine ⟨?_, ?_, ?_⟩
  · intro hres hmem
    simp only [List.mem_cons, List.not_mem_nil, or_false, not_or] at hmem
    obtain ⟨payload, hx⟩ := Option.isSome_iff_exists.mp hres
    simp [handleCreateAfterCreate, hx, hmem.1, hmem.2.1, hmem.2.2]
  · intro hmem id findOne
    simp only [List.mem_cons, List.not_mem_nil, or_false, not_or] at hmem
    simp [handleUpdateStatusSwitch, hmem.1, hmem.2.1, hmem.2.2]
  · intro hmem
    simp only [List.mem_cons, List.not_mem_nil, or_false, not_or] at hmem
    simp [handleDeleteAfterDelete, hmem.1, hmem.2.1, hmem.2.2]

/-- C5 witness: status 500 is rejected by all three mutating handlers. -/
theorem C5_witness :
    handleCreateAfterCreate "posts" ⟨some "obj", 500⟩ =
      .errorOut (.invalidStatusCode 500 "posts" "Create") ∧
    handleUpdateStatusSwitch "posts" "1"
      (fun _ => .error (.backend 0)) ⟨some "obj", 500⟩ =
      (.errorOut (.invalidStatusCode 500 "posts" "Update"), []) ∧
    handleDeleteAfterDelete "posts" ⟨some "obj", 500⟩ =
      .errorOut (.invalidStatusCode 500 "posts" "Delete") :=
  have h := C5_statusAllowList "posts" ⟨some "obj", 500⟩
  ⟨h.1 rfl (by decide), h.2.1 (by decide) "1" (fun _ => .error (.backend 0)),
    h.2.2 (by decide)⟩

/-- Decoded JSON values, the shape unmarshalRequest produces (Go
interface{} after json.Unmarshal): objects are Go maps embedded as
association lists. -/
inductive JSON where
  | null
  | bool (b : Bool)
  | num (n : Int)
  | str (s : String)
  | arr (elems : List JSON)
  | obj (fields : List (String × JSON))

/-- The string id of one to-many payload entry, when the entry is an
object whose id key holds a string; none otherwise.  This is exactly
the per-entry test of the extraction loops. -/
def entryID : JSON → Option String
  | .obj casted =>
    match assocLookup casted "id" with
    | some (.str s) => some s
    | _ => none
  | _ => none

/-- Embeds the id-extraction loops of handleAddToManyRelation and
handleDeleteToManyRelation (request.go lines 772-783 and 840-851): walk
the data array in order, collect each string id, abort on the first
entry that is not an object ("entry in data object invalid") or has no
string id ("no id field found inside data object"). -/
def extractIDs : List JSON → Except GoError (List String)
  | [] => .ok []
  | newRel :: rest =>
    match newRel with
    | .obj casted =>
      match assocLookup casted "id" with
      | some (.str newID) =>
        match extractIDs rest with
        | .ok ids => .ok (newID :: ids)
        | .error e => .error e
      | _ => .error .noIdField
    | _ => .error .entryInvalid

/-- Unfolding extractIDs over an entry with a good id. -/
theorem extractIDs_cons_some (e : JSON) (rest : List JSON) (s : String)
    (h : entryID e = some s) :
    extractIDs (e :: rest) =
      match extractIDs rest with
      | .ok ids => .ok (s :: ids)
      | .error err => .error err := by
  cases e with
  | null => simp [entryID] at h
  | bool b => simp [entryID] at h
  | num n => simp [entryID] at h
  | str t => simp [entryID] at h
  | arr xs => simp [entryID] at h
  | obj fields =>
    simp only [entryID] at h
    cases hl : assocLookup fields "id" with
    | none => rw [hl] at h; simp at h
    | some v =>
      rw [hl] at h
      cases v with
      | str s₁ =>
        simp only [] at h
        injection h with h
        subst h
        simp [extractIDs, hl]
      | null => simp at h
      | bool b => simp at h
      | num n => simp at h
      | arr xs => simp at h
      | obj f₂ => simp at h

/-- Unfolding extractIDs over a bad entry: the whole batch errors. -/
theorem extractIDs_cons_none (e : JSON) (rest : List JSON)
    (h : entryID e = none) :
    ∃ err, extractIDs (e :: rest) = .error err := by
  cases e with
  | null => exact ⟨.entryInvalid, by simp [extractIDs]⟩
  | bool b => exact ⟨.entryInvalid, by simp [extractIDs]⟩
  | num n => exact ⟨.entryInvalid, by simp [extractIDs]⟩
  | str t => exact ⟨.entryInvalid, by simp [extractIDs]⟩
  | arr xs => exact ⟨.entryInvalid, by simp [extractIDs]⟩
  | obj fields =>
    refine ⟨.noIdField, ?_⟩
    simp only [entryID] at h
    cases hl : assocLookup fields "id" with
    | none => simp [extractIDs, hl]
    | some v =>
      rw [hl] at h
      cases v with
      | str s₁ => simp at h
      | null => simp [extractIDs, hl]
      | bool b => simp [extractIDs, hl]
      | num n => simp [extractIDs, hl]
      | arr xs => simp [extractIDs, hl]
      | obj f₂ => simp [extractIDs, hl]

/-- When every entry has a string id, extraction succeeds and returns
all the ids in order. -/
theorem extractIDs_ok_of_all (l : List JSON)
    (h : ∀ e ∈ l, (entryID e).isSome) :
    extractIDs l = .ok (l.filterMap entryID) := by
  induction l with
  | nil => rfl
  | cons e rest ih =>
    obtain ⟨s, hs⟩ := Option.isSome_iff_exists.mp (h e (by simp))
    rw [extractIDs_cons_some e rest s hs,
      ih (fun x hx => h x (List.mem_cons_of_mem _ hx))]
    simp [List.filterMap_cons, hs]

/-- When some entry lacks a string id, extraction errors. -/
theorem extractIDs_error_of_bad (l : List JSON)
    (h : ∃ e ∈ l, entryID e = none) :
    ∃ err, extractIDs l = .error err := by
  induction l with
  | nil => simp at h
  | cons e rest ih =>
    cases he : entryID e with
    | none => exact extractIDs_cons_none e rest he
    | some s =>
      obtain ⟨x, hx, hxnone⟩ := h
      rcases List.mem_cons.mp hx with rfl | hxrest
      · rw [he] at hxnone; cases hxnone
      · obtain ⟨err, herr⟩ := ih ⟨x, hxrest, hxnone⟩
        rw [extractIDs_cons_some e rest s he, herr]
        exact ⟨err, rfl⟩

/-- Backend capability invocations traced by the relationship
handlers. -/
inductive BackendCall where
  | addToManyIDs (rel : String) (ids : List String)
  | deleteToManyIDs (rel : String) (ids : List String)
  | update

/-- Result of an embedded relationship handler: backend calls made in
order, the status code written to the response (if any), and the error
the handler returns to the route wrapper. -/
structure RelationHandlerOut where
  calls : List BackendCall
  wrote : Option Nat
  err : Option GoError

/-- Embeds resource.handleAddToManyRelation (request.go lines 741-807)
as a function of the FindOne response, the unmarshalled payload, whether
the target object implements jsonapi.EditToManyRelations, and the error
of the backend Update call. -/
def handleAddToManyRelation (relName : String)
    (findOneRes : Except GoError SourceResponse)
    (unmarshalRes : Except GoError (List (String × JSON)))
    (implementsEditToMany : Bool) (updateErr : Option GoError) :
    RelationHandlerOut :=
  match findOneRes with
  | .error e => ⟨[], none, some e⟩
  | .ok _ =>
    match unmarshalRes with
    | .error e => ⟨[], none, some e⟩
    | .ok inc =>
      match assocLookup inc "data" with
      | none => ⟨[], none, some .needDataObject⟩
      | some data =>
        match data with
        | .arr newRels =>
          match extractIDs newRels with
          | .error e => ⟨[], none, some e⟩
          | .ok newIDs =>
            if implementsEditToMany then
              ⟨[.addToManyIDs relName newIDs, .update], some 204, updateErr⟩
            else ⟨[], none, some .notEditToMany⟩
        | _ => ⟨[], none, some .dataNotArray⟩

/-- Embeds resource.handleDeleteToManyRelation (request.go lines
809-875); identical control flow to the add handler, invoking
DeleteToManyIDs instead. -/
def handleDeleteToManyRelation (relName : String)
    (findOneRes : Except GoError SourceResponse)
    (unmarshalRes : Except GoError (List (String × JSON)))
    (implementsEditToMany : Bool) (updateErr : Option GoError) :
    RelationHandlerOut :=
  match findOneRes with
  | .error e => ⟨[], none, some e⟩
  | .ok _ =>
    match unmarshalRes with
    | .error e => ⟨[], none, some e⟩
    | .ok inc =>
      match assocLookup inc "data" with
      | none => ⟨[], none, some .needDataObject⟩
      | some data =>
        match data with
        | .arr newRels =>
          match extractIDs newRels with
          | .error e => ⟨[], none, some e⟩
          | .ok obsoleteIDs =>
            if implementsEditToMany then
              ⟨[.deleteToManyIDs relName obsoleteIDs, .update], some 204, updateErr⟩
            else ⟨[], none, some .notEditToMany⟩
        | _ => ⟨[], none, some .dataNotArray⟩

/-- Embeds resource.handleReplaceRelation (request.go lines 695-739) as
a function of the FindOne response, the unmarshalled payload, the error
of jsonapi.UnmarshalRelationshipsData, and the error of the backend
Update call. -/
def handleReplaceRelation (findOneRes : Except GoError SourceResponse)
    (unmarshalRes : Except GoError (List (String × JSON)))
    (relationshipsDataErr : Option GoError) (updateErr : Option GoError) :
    RelationHandlerOut :=
  match findOneRes with
  | .error e => ⟨[], none, some e⟩
  | .ok _ =>
    match unmarshalRes with
    | .error e => ⟨[], none, some e⟩
    | .ok inc =>
      match assocLookup inc "data" with
      | none => ⟨[], none, some .needDataObject⟩
      | some _ =>
        match relationshipsDataErr with
        | some e => ⟨[], none, some e⟩
        | none => ⟨[.update], some 204, updateErr⟩

/-- C6: a to-many POST or DELETE payload with any entry lacking a
string id makes both handlers return an error with no backend call at
all (no partial application); with every entry carrying a string id,
all extracted ids go to the add/delete capability in one call, followed
by exactly one Update. -/
theorem C6_toManyBatchValidation (relName : String) (fr : SourceResponse)
    (inc : List (String × JSON)) (newRels : List JSON)
    (impl : Bool) (updateErr : Option GoError)
    (hdata : assocLookup inc "data" = some (.arr newRels)) :
    ((∃ e ∈ newRels, entryID e = none) →
      ∃ errA errD,
        handleAddToManyRelation relName (.ok fr) (.ok inc) impl updateErr =
          ⟨[], none, some errA⟩ ∧
        handleDeleteToManyRelation relName (.ok fr) (.ok inc) impl updateErr =
          ⟨[], none, some errD⟩) ∧
    ((∀ e ∈ newRels, (entryID e).isSome) →
      handleAddToManyRelation relName (.ok fr) (.ok inc) true updateErr =
        ⟨[.addToManyIDs relName (newRels.filterMap entryID), .update],
          some 204, updateErr⟩ ∧
      handleDeleteToManyRelation relName (.ok fr) (.ok inc) true updateErr =
        ⟨[.deleteToManyIDs relName (newRels.filterMap entryID), .update],
          some 204, updateErr⟩) := by
  constructor
  · intro hbad
    obtain ⟨err, herr⟩ := extractIDs_error_of_bad newRels hbad
    refine ⟨err, err, ?_, ?_⟩ <;>
      simp [handleAddToManyRelation, handleDeleteToManyRelation, hdata, herr]
  · intro hgood
    constructor <;>
      simp [handleAddToManyRelation, handleDeleteToManyRelation, hdata,
        extractIDs_ok_of_all newRels hgood]

/-- C6 witness: a one-entry payload with a string id leads to a single
AddToManyIDs (resp. DeleteToManyIDs) call with that id and one Update. -/
theorem C6_witness :
    handleAddToManyRelation "tags" (.ok ⟨some "o", 200⟩)
      (.ok [("data", .arr [.obj [("id", .str "5"), ("type", .str "tags")]])])
      true none =
      ⟨[.addToManyIDs "tags" ["5"], .update], some 204, none⟩ ∧
    handleDeleteToManyRelation "tags" (.ok ⟨some "o", 200⟩)
      (.ok [("data", .arr [.obj [("id", .str "5"), ("type", .str "tags")]])])
      true none =
      ⟨[.deleteToManyIDs "tags" ["5"], .update], some 204, none⟩ :=
  (C6_toManyBatchValidation "tags" ⟨some "o", 200⟩
      [("data", .arr [.obj [("id", .str "5"), ("type", .str "tags")]])]
      [.obj [("id", .str "5"), ("type", .str "tags")]] true none rfl).2
    (by intro e he
        simp only [List.mem_singleton] at he
        subst he
        rfl)

/-- C10: once payload validation passes, each relationship mutation
handler writes 204 unconditionally, before its returned error is
inspected: the Update error comes back to the route wrapper (which
hands it to the error reporter) while 204 has already been written. -/
theorem C10_relationWrites204 (relName : String) (fr : SourceResponse)
    (inc inc2 : List (String × JSON)) (newRels : List JSON) (ids : List String)
    (d : JSON) (updateErr : Option GoError)
    (hdata : assocLookup inc "data" = some (.arr newRels))
    (hids : extractIDs newRels = .ok ids)
    (hdata2 : assocLookup inc2 "data" = some d) :
    (handleAddToManyRelation relName (.ok fr) (.ok inc) true updateErr).wrote =
      some 204 ∧
    (handleAddToManyRelation relName (.ok fr) (.ok inc) true updateErr).err =
      updateErr ∧
    (handleDeleteToManyRelation relName (.ok fr) (.ok inc) true updateErr).wrote =
      some 204 ∧
    (handleDeleteToManyRelation relName (.ok fr) (.ok inc) true updateErr).err =
      updateErr ∧
    (handleReplaceRelation (.ok fr) (.ok inc2) none updateErr).wrote = some 204 ∧
    (handleReplaceRelation (.ok fr) (.ok inc2) none updateErr).err = updateErr := by
  refine ⟨?_, ?_, ?_, ?_, ?_, ?_⟩ <;>
    simp [handleAddToManyRelation, handleDeleteToManyRelation,
      handleReplaceRelation, hdata, hdata2, hids]

/-- C10 witness: with a backend Update that fails, all three handlers
still write 204 and return the Update error. -/
theorem C10_witness :
    (handleAddToManyRelation "tags" (.ok ⟨some "o", 200⟩)
      (.ok [("data", .arr [])]) true (some (.backend 7))).wrote = some 204 ∧
    (handleAddToManyRelation "tags" (.ok ⟨some "o", 200⟩)
      (.ok [("data", .arr [])]) true (some (.backend 7))).err =
      some (.backend 7) ∧
    (handleDeleteToManyRelation "tags" (.ok ⟨some "o", 200⟩)
      (.ok [("data", .arr [])]) true (some (.backend 7))).wrote = some 204 ∧
    (handleDeleteToManyRelation "tags" (.ok ⟨some "o", 200⟩)
      (.ok [("data", .arr [])]) true (some (.backend 7))).err =
      some (.backend 7) ∧
    (handleReplaceRelation (.ok ⟨some "o", 200⟩)
      (.ok [("data", .null)]) none (some (.backend 7))).wrote = some 204 ∧
    (handleReplaceRelation (.ok ⟨some "o", 200⟩)
      (.ok [("data", .null)]) none (some (.backend 7))).err =
      some (.backend 7) :=
  C10_relationWrites204 "tags" ⟨some "o", 200⟩ [("data", .arr [])]
    [("data", .null)] [] [] .null (some (.backend 7)) rfl rfl rfl

/-- A registered content codec: the built-in JSON codec or a custom
registered one. -/
inductive ContentMarshaler where
  | json
  | custom (name : String)
deriving DecidableEq

/-- The built-in default content type (request.go line 38). -/
def defaultContentTypeHeader : String := "application/vnd.api+json; charset=utf-8"

/-- Embeds selectContentMarshaler (request.go lines 1083-1103).
negotiate stands for the external httputil.NegotiateContentType,
applied to the registered content types and the default; acceptPresent
and contentTypeHeader reflect the Accept header's presence and the
first Content-Type header value.  The source first picks a possibly-nil
marshaler and a content type, then patches a nil marshaler with the
built-in default pair. -/
def selectContentMarshaler (negotiate : List String → String → String)
    (acceptPresent : Bool) (contentTypeHeader : Option String)
    (marshalers : List (String × ContentMarshaler)) :
    ContentMarshaler × String :=
  let selected : Option ContentMarshaler × String :=
    if acceptPresent then
      let contentType := negotiate (marshalers.map Prod.fst) defaultContentTypeHeader
      (assocLookup marshalers contentType, contentType)
    else
      match contentTypeHeader with
      | some ct => (assocLookup marshalers ct, ct)
      | none => (none, "")
  match selected.1 with
  | some m => (m, selected.2)
  | none => (ContentMarshaler.json, defaultContentTypeHeader)

/-- The selection order exactly as the specification words it: with an
Accept header, negotiate among the registered content types (negotiate
itself falls back to the default content type); otherwise with a
Content-Type header, use its value directly as the map key; otherwise,
or whenever the lookup yields no marshaler, the built-in default
content type and JSON codec. -/
def selectContentMarshalerSpec (negotiate : List String → String → String)
    (acceptPresent : Bool) (contentTypeHeader : Option String)
    (marshalers : List (String × ContentMarshaler)) :
    ContentMarshaler × String :=
  if acceptPresent then
    let contentType := negotiate (marshalers.map Prod.fst) defaultContentTypeHeader
    match assocLookup marshalers contentType with
    | some m => (m, contentType)
    | none => (ContentMarshaler.json, defaultContentTypeHeader)
  else
    match contentTypeHeader with
    | some ct =>
      match assocLookup marshalers ct with
      | some m => (m, ct)
      | none => (ContentMarshaler.json, defaultContentTypeHeader)
    | none => (ContentMarshaler.json, defaultContentTypeHeader)

/-- C9: for every request, the marshaler selection of the source agrees
with the specification's selection order, resolving exactly one
marshaler/content-type pair. -/
theorem C9_contentNegotiation (negotiate : List String → String → String)
    (acceptPresent : Bool) (contentTypeHeader : Option String)
    (marshalers : List (String × ContentMarshaler)) :
    selectContentMarshaler negotiate acceptPresent contentTypeHeader marshalers =
      selectContentMarshalerSpec negotiate acceptPresent contentTypeHeader
        marshalers := by
  cases acceptPresent with
  | false =>
    cases contentTypeHeader with
    | none => rfl
    | some ct =>
      cases hl : assocLookup marshalers ct <;>
        simp [selectContentMarshaler, selectContentMarshalerSpec, hl]
  | true =>
    cases hl : assocLookup marshalers
        (negotiate (marshalers.map Prod.fst) defaultContentTypeHeader) <;>
      simp [selectContentMarshaler, selectContentMarshalerSpec, hl]

/-- One resource object of an assembled document, projected to the keys
filterSparseFields consumes: its type string and its optional attributes
map (a document entry with no attributes key is skipped by the
filter). -/
structure Entry where
  type : String
  attributes : Option (List (String × JSON))

/-- The shape of the top-level data key as the two Go type assertions
see it: a single object, an array of objects, absent, or some other
value (both assertions fail, the value passes through untouched). -/
inductive DocData where
  | missing
  | single (e : Entry)
  | multi (es : List Entry)
  | other

/-- An assembled response document, projected to the keys
filterSparseFields consumes. -/
structure Document where
  data : DocData
  included : Option (List Entry)

/-- The 400 error document built from the collected invalid fields:
one (type, field) pair per Error entry. -/
structure HTTPErrorModel where
  status : Nat
  errors : List (String × String)

/-- Embeds the loop of filterAttributes (request.go lines 1050-1063):
for each requested field in order, copy it from the attributes map if
present, otherwise record it as wrong. -/
def filterAttributesLoop (attributes : List (String × JSON))
    (acc : List (String × JSON) × List String) :
    List String → List (String × JSON) × List String
  | [] => acc
  | field :: rest =>
    match assocLookup attributes field with
    | some attrVal =>
      filterAttributesLoop attributes (assocInsert acc.1 field attrVal, acc.2) rest
    | none =>
      filterAttributesLoop attributes (acc.1, acc.2 ++ [field]) rest

/-- Embeds filterAttributes (request.go lines 1050-1063). -/
def filterAttributes (attributes : List (String × JSON)) (fields : List String) :
    List (String × JSON) × List String :=
  filterAttributesLoop attributes ([], []) fields

/-- Embeds replaceAttributes (request.go lines 1065-1081): when fields
are requested for this entry's type and the entry has an attributes
map, replace it with the filtered map and report the wrong fields of
this entry (if any) under the entry's type. -/
def replaceAttributes (query : List (String × List String)) (entry : Entry) :
    Entry × Option (String × List String) :=
  let fieldType := entry.type
  let fields := (assocLookup query fieldType).getD []
  if fields.length > 0 then
    match entry.attributes with
    | some attributes =>
      let fa := filterAttributes attributes fields
      if fa.2.length > 0 then
        ({ entry with attributes := some fa.1 }, some (fieldType, fa.2))
      else ({ entry with attributes := some fa.1 }, none)
    | none => (entry, none)
  else (entry, none)

/-- Merging one entry's error report into the wrongFields map
(request.go lines 988-1013, the per-entry merge loops): a Go map write,
so a later entry of the same type replaces the earlier report. -/
def applyWrong (wrongFields : List (String × List String))
    (w : Option (String × List String)) : List (String × List String) :=
  match w with
  | some tv => assocInsert wrongFields tv.1 tv.2
  | none => wrongFields

/-- Embeds the entry loops of filterSparseFields over a data or
included slice: filter each entry in order, threading the wrongFields
map. -/
def replaceEntries (query : List (String × List String))
    (acc : List (String × List String)) :
    List Entry → List Entry × List (String × List String)
  | [] => ([], acc)
  | e :: rest =>
    let r := replaceAttributes query e
    let p := replaceEntries query (applyWrong acc r.2) rest
    (r.1 :: p.1, p.2)

/-- Embeds the data section of filterSparseFields (request.go lines
987-1003): a single data object or a data array is filtered, anything
else is untouched. -/
def filterDocData (query : List (String × List String)) :
    DocData → DocData × List (String × List String)
  | .single e =>
    let r := replaceAttributes query e
    (.single r.1, applyWrong [] r.2)
  | .multi es =>
    let p := replaceEntries query [] es
    (.multi p.1, p.2)
  | d => (d, [])

/-- Embeds the included section of filterSparseFields (request.go lines
1006-1014), continuing with the wrongFields collected from the data
section. -/
def filterIncluded (query : List (String × List String))
    (acc : List (String × List String)) :
    Option (List Entry) → Option (List Entry) × List (String × List String)
  | some es =>
    let p := replaceEntries query acc es
    (some p.1, p.2)
  | none => (none, acc)

/-- Flattens the wrongFields map into the Errors list of the 400
response (request.go lines 1016-1031): one entry per type per field. -/
def buildErrors (wrongFields : List (String × List String)) :
    List (String × String) :=
  match wrongFields with
  | [] => []
  | tv :: rest => tv.2.map (fun field => (tv.1, field)) ++ buildErrors rest

/-- Embeds filterSparseFields (request.go lines 976-1035): with no
fields query parameters the document passes through; otherwise filter
the data section and then the included section, and if any wrong fields
were collected anywhere replace the whole response by a 400 error
document. -/
def filterSparseFields (query : List (String × List String)) (doc : Document) :
    Except HTTPErrorModel Document :=
  if query.length < 1 then .ok doc
  else
    let pd := filterDocData query doc.data
    let pinc := filterIncluded query pd.2 doc.included
    if pinc.2.length > 0 then
      .error { status := 400, errors := buildErrors pinc.2 }
    else .ok { data := pd.1, included := pinc.1 }

/-- The entries the data section of a document holds. -/
def dataEntries : DocData → List Entry
  | .single e => [e]
  | .multi es => es
  | _ => []

/-- The entries of a document that the filter visits, in processing
order: the data object or array, then the included array. -/
def docEntries (doc : Document) : List Entry :=
  dataEntries doc.data ++ doc.included.getD []

/-- The requested fields missing from an attributes map, in request
order. -/
def offendingFields (query : List (String × List String))
    (attrs : List (String × JSON)) (t : String) : List String :=
  ((assocLookup query t).getD []).filter (fun f => (assocLookup attrs f).isNone)

/-- An entry offends the fields query when it has an attributes map and
at least one field requested for its type is absent from it. -/
def offends (query : List (String × List String)) (e : Entry) : Prop :=
  ∃ attrs, e.attributes = some attrs ∧ offendingFields query attrs e.type ≠ []

/-- A Go map write never produces an empty map. -/
theorem assocInsert_ne_nil {α : Type} (l : List (String × α)) (k : String) (v : α) :
    assocInsert l k v ≠ [] := by
  cases l with
  | nil => simp [assocInsert]
  | cons p rest =>
    obtain ⟨k₁, v₁⟩ := p
    simp only [assocInsert]
    split_ifs <;> simp

/-- Every binding of a map after a write is the written binding or an
old one. -/
theorem assocInsert_mem {α : Type} (l : List (String × α)) (k : String) (v : α)
    (x : String × α) (h : x ∈ assocInsert l k v) : x = (k, v) ∨ x ∈ l := by
  induction l with
  | nil =>
    simp only [assocInsert, List.mem_singleton] at h
    exact Or.inl h
  | cons p rest ih =>
    obtain ⟨k₁, v₁⟩ := p
    simp only [assocInsert] at h
    split_ifs at h with hk
    · rcases List.mem_cons.mp h with h | h
      · exact Or.inl h
      · exact Or.inr (List.mem_cons_of_mem _ h)
    · rcases List.mem_cons.mp h with h | h
      · exact Or.inr (by simp [h])
      · rcases ih h with h | h
        · exact Or.inl h
        · exact Or.inr (List.mem_cons_of_mem _ h)

/-- Reading a map after a write. -/
theorem assocLookup_insert {α : Type} (l : List (String × α)) (k k₁ : String)
    (v : α) :
    assocLookup (assocInsert l k v) k₁ =
      if k = k₁ then some v else assocLookup l k₁ := by
  induction l with
  | nil => simp [assocInsert, assocLookup]
  | cons p rest ih =>
    obtain ⟨k₂, v₂⟩ := p
    by_cases hk : k₂ = k
    · subst hk
      simp only [assocInsert, if_pos rfl]
      by_cases hkk : k₂ = k₁ <;> simp [assocLookup, hkk]
    · simp only [assocInsert, if_neg hk]
      by_cases h₂ : k₂ = k₁
      · have hkne : ¬ k = k₁ := fun hc => hk (h₂.trans hc.symm)
        simp [assocLookup, h₂, hkne]
      · simp [assocLookup, h₂, ih]

/-- The wrong-fields component of the filterAttributes loop: the
requested fields missing from the attributes map, in request order,
appended to the accumulator. -/
theorem filterAttributesLoop_wrong (attributes : List (String × JSON))
    (fields : List String) : ∀ acc,
    (filterAttributesLoop attributes acc fields).2 =
      acc.2 ++ fields.filter (fun f => (assocLookup attributes f).isNone) := by
  induction fields with
  | nil => intro acc; simp [filterAttributesLoop]
  | cons g rest ih =>
    intro acc
    simp only [filterAttributesLoop]
    cases hl : assocLookup attributes g with
    | some v => simp [hl, ih, List.filter_cons]
    | none => simp [hl, ih, List.filter_cons]

/-- Reading the filtered-attributes component of the loop: a requested
field present in the attributes map keeps its value, everything else
falls back to the accumulator. -/
theorem filterAttributesLoop_lookup (attributes : List (String × JSON))
    (fields : List String) (f : String) : ∀ acc,
    assocLookup (filterAttributesLoop attributes acc fields).1 f =
      if f ∈ fields ∧ (assocLookup attributes f).isSome then
        assocLookup attributes f
      else assocLookup acc.1 f := by
  induction fields with
  | nil => intro acc; simp [filterAttributesLoop]
  | cons g rest ih =>
    intro acc
    simp only [filterAttributesLoop]
    cases hl : assocLookup attributes g with
    | some v =>
      rw [ih, assocLookup_insert]
      by_cases hfr : f ∈ rest ∧ (assocLookup attributes f).isSome
      · rw [if_pos hfr, if_pos ⟨List.mem_cons_of_mem g hfr.1, hfr.2⟩]
      · rw [if_neg hfr]
        by_cases hgf : g = f
        · subst hgf
          rw [if_pos rfl, if_pos ⟨List.mem_cons_self g rest, by simp [hl]⟩, hl]
        · have hcond : ¬ (f ∈ g :: rest ∧ (assocLookup attributes f).isSome) := by
            rintro ⟨hmem, hs⟩
            rcases List.mem_cons.mp hmem with hc | hc
            · exact hgf hc.symm
            · exact hfr ⟨hc, hs⟩
          rw [if_neg hgf, if_neg hcond]
    | none =>
      rw [ih]
      simp only []
      by_cases hfr : f ∈ rest ∧ (assocLookup attributes f).isSome
      · rw [if_pos hfr, if_pos ⟨List.mem_cons_of_mem g hfr.1, hfr.2⟩]
      · have hcond : ¬ (f ∈ g :: rest ∧ (assocLookup attributes f).isSome) := by
          rintro ⟨hmem, hs⟩
          rcases List.mem_cons.mp hmem with hc | hc
          · rw [hc, hl] at hs
            simp at hs
          · exact hfr ⟨hc, hs⟩
        rw [if_neg hfr, if_neg hcond]

/-- The loop only consults the attributes map on the requested fields:
two maps agreeing there filter identically. -/
theorem filterAttributesLoop_congr (A B : List (String × JSON))
    (fields : List String)
    (h : ∀ f ∈ fields, assocLookup A f = assocLookup B f) :
    ∀ acc, filterAttributesLoop A acc fields = filterAttributesLoop B acc fields := by
  induction fields with
  | nil => intro acc; rfl
  | cons g rest ih =>
    intro acc
    simp only [filterAttributesLoop]
    rw [h g (List.mem_cons_self g rest)]
    cases hl : assocLookup B g <;>
      exact ih (fun f hf => h f (List.mem_cons_of_mem _ hf)) _

/-- filterAttributes with no wrong fields is idempotent: the filtered
map filters to itself. -/
theorem filterAttributes_idem (attributes : List (String × JSON))
    (fields : List String) (filtered : List (String × JSON))
    (h : filterAttributes attributes fields = (filtered, [])) :
    filterAttributes filtered fields = (filtered, []) := by
  have hw := filterAttributesLoop_wrong attributes fields ([], [])
  rw [show filterAttributesLoop attributes ([], []) fields = (filtered, []) from h]
    at hw
  have hfilter : fields.filter (fun f => (assocLookup attributes f).isNone) = [] :=
    by simpa using hw.symm
  have hall : ∀ f ∈ fields, (assocLookup attributes f).isSome := by
    intro f hf
    by_contra hno
    have hmem : f ∈ fields.filter (fun f => (assocLookup attributes f).isNone) :=
      List.mem_filter.mpr ⟨hf, by
        simp only [Option.isNone_iff_eq_none]
        exact Option.not_isSome_iff_eq_none.mp hno⟩
    rw [hfilter] at hmem
    exact List.not_mem_nil f hmem
  have hlk : ∀ f ∈ fields, assocLookup filtered f = assocLookup attributes f := by
    intro f hf
    have hlook := filterAttributesLoop_lookup attributes fields f ([], [])
    rw [show filterAttributesLoop attributes ([], []) fields = (filtered, [])
      from h] at hlook
    rw [hlook, if_pos ⟨hf, hall f hf⟩]
  unfold filterAttributes
  rw [filterAttributesLoop_congr filtered attributes fields hlk ([], [])]
  exact h

/-- The error report of replaceAttributes: none when the entry has no
attributes map or no requested field is missing; otherwise the entry's
type paired with its missing fields. -/
theorem replaceAttributes_snd (query : List (String × List String)) (e : Entry) :
    (replaceAttributes query e).2 =
      match e.attributes with
      | none => none
      | some attrs =>
        if offendingFields query attrs e.type = [] then none
        else some (e.type, offendingFields query attrs e.type) := by
  simp only [replaceAttributes]
  by_cases hlen : ((assocLookup query e.type).getD []).length > 0
  · rw [if_pos hlen]
    cases ha : e.attributes with
    | none => simp
    | some attrs =>
      simp only []
      have hw : (filterAttributes attrs ((assocLookup query e.type).getD [])).2 =
          offendingFields query attrs e.type := by
        unfold filterAttributes offendingFields
        rw [filterAttributesLoop_wrong]
        simp
      by_cases hoff : offendingFields query attrs e.type = []
      · rw [if_neg (by rw [hw, hoff]; simp), if_pos hoff]
      · rw [if_pos (by rw [hw]; exact List.length_pos.mpr hoff), if_neg hoff, hw]
  · rw [if_neg hlen]
    have hnil : (assocLookup query e.type).getD [] = [] :=
      List.length_eq_zero.mp (by omega)
    cases e.attributes with
    | none => simp
    | some attrs => simp [offendingFields, hnil]

/-- replaceAttributes reports nothing exactly on non-offending
entries. -/
theorem replaceAttributes_none_iff (query : List (String × List String))
    (e : Entry) :
    (replaceAttributes query e).2 = none ↔ ¬ offends query e := by
  rw [replaceAttributes_snd]
  cases ha : e.attributes with
  | none => simp [offends, ha]
  | some attrs =>
    by_cases hoff : offendingFields query attrs e.type = [] <;>
      simp [offends, ha, hoff]

/-- A report of replaceAttributes names the entry's type and its
nonempty list of missing requested fields. -/
theorem replaceAttributes_some_inv (query : List (String × List String))
    (e : Entry) (tv : String × List String)
    (h : (replaceAttributes query e).2 = some tv) :
    ∃ attrs, e.attributes = some attrs ∧ tv.1 = e.type ∧
      tv.2 = offendingFields query attrs e.type ∧ tv.2 ≠ [] := by
  rw [replaceAttributes_snd] at h
  cases ha : e.attributes with
  | none => rw [ha] at h; cases h
  | some attrs =>
    rw [ha] at h
    simp only [] at h
    by_cases hoff : offendingFields query attrs e.type = []
    · rw [if_pos hoff] at h
      cases h
    · rw [if_neg hoff] at h
      injection h with h
      subst h
      exact ⟨attrs, rfl, rfl, rfl, hoff⟩

/-- A non-offending entry is filtered to a fixed point: filtering the
result again changes nothing and reports nothing. -/
theorem replaceAttributes_idem (query : List (String × List String))
    (e e₁ : Entry) (h : replaceAttributes query e = (e₁, none)) :
    replaceAttributes query e₁ = (e₁, none) := by
  simp only [replaceAttributes] at h ⊢
  by_cases hlen : ((assocLookup query e.type).getD []).length > 0
  · rw [if_pos hlen] at h
    cases ha : e.attributes with
    | none =>
      rw [ha] at h
      simp only [] at h
      injection h with h₁ h₂
      subst h₁
      rw [if_pos hlen, ha]
    | some attrs =>
      rw [ha] at h
      simp only [] at h
      by_cases hfa :
          (filterAttributes attrs ((assocLookup query e.type).getD [])).2.length > 0
      · rw [if_pos hfa] at h
        injection h with h₁ h₂
        cases h₂
      · rw [if_neg hfa] at h
        injection h with h₁ h₂
        subst h₁
        have hfa2 : (filterAttributes attrs ((assocLookup query e.type).getD [])).2
            = [] := List.length_eq_zero.mp (by omega)
        have hsplit : filterAttributes attrs ((assocLookup query e.type).getD []) =
            ((filterAttributes attrs ((assocLookup query e.type).getD [])).1, []) :=
          Prod.ext rfl hfa2
        have hidem := filterAttributes_idem attrs
          ((assocLookup query e.type).getD [])
          (filterAttributes attrs ((assocLookup query e.type).getD [])).1 hsplit
        rw [if_pos hlen]
        simp only []
        rw [hidem]
        simp
  · rw [if_neg hlen] at h
    injection h with h₁ h₂
    subst h₁
    rw [if_neg hlen]

/-- Merging a report leaves the wrongFields map empty only when it was
empty and there was nothing to merge. -/
theorem applyWrong_nil_iff (acc : List (String × List String))
    (w : Option (String × List String)) :
    applyWrong acc w = [] ↔ (acc = [] ∧ w = none) := by
  cases w with
  | none => simp [applyWrong]
  | some tv => simp [applyWrong, assocInsert_ne_nil]

/-- A binding of the merged wrongFields map is an old binding or the
merged report. -/
theorem applyWrong_mem (acc : List (String × List String))
    (w : Option (String × List String)) (x : String × List String)
    (h : x ∈ applyWrong acc w) : x ∈ acc ∨ w = some x := by
  cases w with
  | none => exact Or.inl h
  | some tv =>
    rcases assocInsert_mem acc tv.1 tv.2 x h with h | h
    · right
      rw [h]
    · exact Or.inl h

/-- The filtered entries do not depend on the wrongFields
accumulator. -/
theorem replaceEntries_fst (query : List (String × List String))
    (es : List Entry) : ∀ acc,
    (replaceEntries query acc es).1 =
      es.map (fun e => (replaceAttributes query e).1) := by
  induction es with
  | nil => intro acc; rfl
  | cons e rest ih => intro acc; simp [replaceEntries, ih]

/-- The wrongFields map after an entry loop is empty exactly when it
started empty and no processed entry reported anything. -/
theorem replaceEntries_wrong_nil_iff (query : List (String × List String))
    (es : List Entry) : ∀ acc,
    ((replaceEntries query acc es).2 = [] ↔
      (acc = [] ∧ ∀ e ∈ es, (replaceAttributes query e).2 = none)) := by
  induction es with
  | nil => intro acc; simp [replaceEntries]
  | cons e rest ih =>
    intro acc
    simp only [replaceEntries]
    rw [ih, applyWrong_nil_iff]
    constructor
    · rintro ⟨⟨hacc, hw⟩, hrest⟩
      refine ⟨hacc, ?_⟩
      intro x hx
      rcases List.mem_cons.mp hx with hx | hx
      · rw [hx]
        exact hw
      · exact hrest x hx
    · rintro ⟨hacc, hall⟩
      exact ⟨⟨hacc, hall e (List.mem_cons_self e rest)⟩,
        fun x hx => hall x (List.mem_cons_of_mem _ hx)⟩

/-- Every binding of the wrongFields map after an entry loop came from
the accumulator or is the report of some processed entry. -/
theorem replaceEntries_wrong_mem (query : List (String × List String))
    (es : List Entry) : ∀ acc tv,
    tv ∈ (replaceEntries query acc es).2 →
      tv ∈ acc ∨ ∃ e ∈ es, (replaceAttributes query e).2 = some tv := by
  induction es with
  | nil => intro acc tv h; exact Or.inl h
  | cons e rest ih =>
    intro acc tv h
    simp only [replaceEntries] at h
    rcases ih _ tv h with h | ⟨x, hx, hxe⟩
    · rcases applyWrong_mem acc _ tv h with h | h
      · exact Or.inl h
      · exact Or.inr ⟨e, List.mem_cons_self e rest, h⟩
    · exact Or.inr ⟨x, List.mem_cons_of_mem _ hx, hxe⟩

/-- A list of fixed-point entries loops to itself with no reports. -/
theorem replaceEntries_clean (query : List (String × List String))
    (es : List Entry)
    (h : ∀ e ∈ es, replaceAttributes query e = (e, none)) :
    replaceEntries query [] es = (es, []) := by
  induction es with
  | nil => rfl
  | cons e rest ih =>
    simp only [replaceEntries]
    rw [h e (List.mem_cons_self e rest)]
    simp only [applyWrong]
    rw [ih (fun x hx => h x (List.mem_cons_of_mem _ hx))]

/-- The wrongFields map collected over the whole document is empty
exactly when no visited entry reports anything. -/
theorem filterWrong_nil_iff (query : List (String × List String))
    (doc : Document) :
    (filterIncluded query (filterDocData query doc.data).2 doc.included).2 = []
      ↔ ∀ e ∈ docEntries doc, (replaceAttributes query e).2 = none := by
  have hdata : ∀ d : DocData, ((filterDocData query d).2 = [] ↔
      ∀ e ∈ dataEntries d, (replaceAttributes query e).2 = none) := by
    intro d
    cases d with
    | single e => simp [filterDocData, dataEntries, applyWrong_nil_iff]
    | multi es => simp [filterDocData, dataEntries, replaceEntries_wrong_nil_iff]
    | missing => simp [filterDocData, dataEntries]
    | other => simp [filterDocData, dataEntries]
  cases hinc : doc.included with
  | none =>
    simp only [filterIncluded]
    rw [hdata doc.data]
    simp [docEntries, hinc]
  | some es =>
    simp only [filterIncluded]
    rw [replaceEntries_wrong_nil_iff, hdata doc.data]
    simp only [docEntries, hinc, Option.getD_some, List.mem_append]
    constructor
    · rintro ⟨hd, hi⟩ x hx
      rcases hx with hx | hx
      · exact hd x hx
      · exact hi x hx
    · intro hall
      exact ⟨fun x hx => hall x (Or.inl hx), fun x hx => hall x (Or.inr hx)⟩

/-- Every binding of the document-level wrongFields map is the report
of some visited entry. -/
theorem filterWrong_mem (query : List (String × List String))
    (doc : Document) (tv : String × List String)
    (h : tv ∈ (filterIncluded query (filterDocData query doc.data).2
      doc.included).2) :
    ∃ e ∈ docEntries doc, (replaceAttributes query e).2 = some tv := by
  have hdata : ∀ d, tv ∈ (filterDocData query d).2 →
      ∃ e ∈ dataEntries d, (replaceAttributes query e).2 = some tv := by
    intro d hmem
    cases d with
    | single e =>
      simp only [filterDocData] at hmem
      rcases applyWrong_mem [] _ tv hmem with hmem | hmem
      · cases hmem
      · exact ⟨e, by simp [dataEntries], hmem⟩
    | multi es =>
      simp only [filterDocData] at hmem
      rcases replaceEntries_wrong_mem query es [] tv hmem with hmem | hmem
      · cases hmem
      · simpa [dataEntries] using hmem
    | missing => cases hmem
    | other => cases hmem
  cases hinc : doc.included with
  | none =>
    rw [hinc] at h
    simp only [filterIncluded] at h
    obtain ⟨e, he, he2⟩ := hdata doc.data h
    refine ⟨e, ?_, he2⟩
    simp only [docEntries, hinc]
    exact List.mem_append_left _ he
  | some es =>
    rw [hinc] at h
    simp only [filterIncluded] at h
    rcases replaceEntries_wrong_mem query es _ tv h with h | ⟨e, he, he2⟩
    · obtain ⟨e, he, he2⟩ := hdata doc.data h
      refine ⟨e, ?_, he2⟩
      simp only [docEntries, hinc]
      exact List.mem_append_left _ he
    · refine ⟨e, ?_, he2⟩
      simp only [docEntries, hinc, Option.getD_some]
      exact List.mem_append_right _ he

/-- Every (type, field) pair of the built error list comes from a
binding of the wrongFields map. -/
theorem buildErrors_mem (w : List (String × List String))
    (tf : String × String) (h : tf ∈ buildErrors w) :
    ∃ tv ∈ w, tf.1 = tv.1 ∧ tf.2 ∈ tv.2 := by
  induction w with
  | nil => cases h
  | cons tv rest ih =>
    simp only [buildErrors] at h
    rcases List.mem_append.mp h with h | h
    · obtain ⟨f, hf, hmap⟩ := List.mem_map.mp h
      refine ⟨tv, List.mem_cons_self tv rest, ?_, ?_⟩
      · rw [← hmap]
      · rw [← hmap]
        exact hf
    · obtain ⟨tv₁, htv₁, h1, h2⟩ := ih h
      exact ⟨tv₁, List.mem_cons_of_mem _ htv₁, h1, h2⟩

/-- A nonempty wrongFields map with nonempty field lists builds a
nonempty error list. -/
theorem buildErrors_ne_nil (w : List (String × List String)) (hne : w ≠ [])
    (hval : ∀ tv ∈ w, tv.2 ≠ ([] : List String)) :
    buildErrors w ≠ [] := by
  cases w with
  | nil => exact absurd rfl hne
  | cons tv rest =>
    simp only [buildErrors]
    have hv := hval tv (List.mem_cons_self tv rest)
    cases htv : tv.2 with
    | nil => exact absurd htv hv
    | cons f fs => simp [htv]

/-- The entries a clean loop produced are themselves fixed points. -/
theorem replaceEntries_result_clean (query : List (String × List String))
    (es : List Entry)
    (h : ∀ e ∈ es, (replaceAttributes query e).2 = none) :
    ∀ x ∈ es.map (fun e => (replaceAttributes query e).1),
      replaceAttributes query x = (x, none) := by
  intro x hx
  obtain ⟨e, he, hmap⟩ := List.mem_map.mp hx
  have hpair : replaceAttributes query e = ((replaceAttributes query e).1, none) :=
    Prod.ext rfl (h e he)
  have hfix := replaceAttributes_idem query e (replaceAttributes query e).1 hpair
  rw [← hmap]
  exact hfix

/-- Filtering the data section of an already cleanly filtered document
changes nothing and reports nothing. -/
theorem filterDocData_idem (query : List (String × List String)) (d : DocData)
    (h : (filterDocData query d).2 = []) :
    filterDocData query (filterDocData query d).1 =
      ((filterDocData query d).1, []) := by
  cases d with
  | single e =>
    simp only [filterDocData] at h ⊢
    rw [applyWrong_nil_iff] at h
    have hr : replaceAttributes query e = ((replaceAttributes query e).1, none) :=
      Prod.ext rfl h.2
    have hidem := replaceAttributes_idem query e (replaceAttributes query e).1 hr
    rw [hidem]
    simp [applyWrong]
  | multi es =>
    simp only [filterDocData] at h ⊢
    rw [replaceEntries_wrong_nil_iff] at h
    have hfix := replaceEntries_result_clean query es h.2
    rw [replaceEntries_fst query es [], replaceEntries_clean query _ hfix]
  | missing => rfl
  | other => rfl

/-- Filtering the included section of an already cleanly filtered
document starts from an empty wrongFields map, changes nothing and
reports nothing. -/
theorem filterIncluded_idem (query : List (String × List String))
    (acc : List (String × List String)) (inc : Option (List Entry))
    (h : (filterIncluded query acc inc).2 = []) :
    acc = [] ∧
    filterIncluded query [] (filterIncluded query acc inc).1 =
      ((filterIncluded query acc inc).1, []) := by
  cases inc with
  | none => exact ⟨h, rfl⟩
  | some es =>
    simp only [filterIncluded] at h ⊢
    rw [replaceEntries_wrong_nil_iff] at h
    obtain ⟨rfl, h2⟩ := h
    refine ⟨rfl, ?_⟩
    have hfix := replaceEntries_result_clean query es h2
    rw [replaceEntries_fst query es [], replaceEntries_clean query _ hfix]

/-- C8: sparse-field filtering is idempotent: a document that filters
successfully filters again, under the same fields parameters, to the
very same document. -/
theorem C8_sparseIdempotent (query : List (String × List String))
    (doc doc₁ : Document) (h : filterSparseFields query doc = .ok doc₁) :
    filterSparseFields query doc₁ = .ok doc₁ := by
  unfold filterSparseFields at h ⊢
  by_cases hq : query.length < 1
  · rw [if_pos hq]
  · rw [if_neg hq] at h ⊢
    simp only [] at h ⊢
    by_cases hlen : (filterIncluded query (filterDocData query doc.data).2
        doc.included).2.length > 0
    · rw [if_pos hlen] at h
      cases h
    · rw [if_neg hlen] at h
      injection h with h
      have hwnil : (filterIncluded query (filterDocData query doc.data).2
          doc.included).2 = [] := List.length_eq_zero.mp (by omega)
      obtain ⟨haccnil, hinc2⟩ := filterIncluded_idem query _ doc.included hwnil
      have hd2 := filterDocData_idem query doc.data haccnil
      rw [← h]
      simp only []
      rw [hd2]
      simp only []
      rw [hinc2]
      simp

/-- C8 witness: a title-only fields query on a document that carries
the title attribute filters successfully, and refiltering the result is
the identity. -/
theorem C8_witness :
    filterSparseFields [("posts", ["a"])]
      ⟨.single ⟨"posts", some [("a", JSON.null)]⟩, none⟩ =
      .ok ⟨.single ⟨"posts", some [("a", JSON.null)]⟩, none⟩ :=
  C8_sparseIdempotent [("posts", ["a"])]
    ⟨.single ⟨"posts", some [("a", JSON.null), ("b", JSON.null)]⟩, none⟩
    ⟨.single ⟨"posts", some [("a", JSON.null)]⟩, none⟩ (by rfl)

/-- C7 (amended): with a nonempty fields query, filterSparseFields
returns an error exactly when some visited entry has a requested field
missing from its attributes map; the error has status 400 and a
nonempty error list, every (type, field) pair of which is a genuinely
missing requested field of some visited entry; no filtered document is
returned.  (The original claim additionally promised that the list
enumerates every offending field; the wrongFields collection is keyed
by type only, so a later entry of the same type overwrites an earlier
entry's report, see C7_counterexample.) -/
theorem C7_sparseFieldErrors (query : List (String × List String))
    (doc : Document) (hq : ¬ query.length < 1) :
    ((∃ e ∈ docEntries doc, offends query e) ↔
      ∃ err, filterSparseFields query doc = .error err) ∧
    (∀ err, filterSparseFields query doc = .error err →
      err.status = 400 ∧ err.errors ≠ [] ∧
      ∀ tf ∈ err.errors, ∃ e ∈ docEntries doc, ∃ attrs,
        e.type = tf.1 ∧ e.attributes = some attrs ∧
        tf.2 ∈ (assocLookup query e.type).getD [] ∧
        assocLookup attrs tf.2 = none) := by
  have hnil_iff : (filterIncluded query (filterDocData query doc.data).2
      doc.included).2 = [] ↔ ∀ e ∈ docEntries doc, ¬ offends query e := by
    rw [filterWrong_nil_iff]
    constructor
    · intro hall e he
      exact (replaceAttributes_none_iff query e).mp (hall e he)
    · intro hall e he
      exact (replaceAttributes_none_iff query e).mpr (hall e he)
  have hkey : (filterIncluded query (filterDocData query doc.data).2
      doc.included).2 ≠ [] ↔ ∃ e ∈ docEntries doc, offends query e := by
    rw [ne_eq, hnil_iff]
    push_neg
    simp only [not_not]
  constructor
  · unfold filterSparseFields
    rw [if_neg hq]
    simp only []
    constructor
    · intro hex
      have hne := hkey.mpr hex
      have hlen : (filterIncluded query (filterDocData query doc.data).2
          doc.included).2.length > 0 := List.length_pos.mpr hne
      exact ⟨_, by rw [if_pos hlen]⟩
    · rintro ⟨err, herr⟩
      by_cases hlen : (filterIncluded query (filterDocData query doc.data).2
          doc.included).2.length > 0
      · refine hkey.mp ?_
        intro hc
        rw [hc] at hlen
        simp at hlen
      · rw [if_neg hlen] at herr
        cases herr
  · intro err herr
    unfold filterSparseFields at herr
    rw [if_neg hq] at herr
    simp only [] at herr
    by_cases hlen : (filterIncluded query (filterDocData query doc.data).2
        doc.included).2.length > 0
    · rw [if_pos hlen] at herr
      injection herr with herr
      subst herr
      refine ⟨rfl, ?_, ?_⟩
      · apply buildErrors_ne_nil
        · intro hc
          rw [hc] at hlen
          simp at hlen
        · intro tv htv
          obtain ⟨e, he, hsnd⟩ := filterWrong_mem query doc tv htv
          obtain ⟨attrs, ha, ht, hoffeq, hne⟩ :=
            replaceAttributes_some_inv query e tv hsnd
          exact hne
      · intro tf htf
        obtain ⟨tv, htv, h1, h2⟩ := buildErrors_mem _ tf htf
        obtain ⟨e, he, hsnd⟩ := filterWrong_mem query doc tv htv
        obtain ⟨attrs, ha, ht, hoffeq, hne⟩ :=
          replaceAttributes_some_inv query e tv hsnd
        rw [hoffeq] at h2
        simp only [offendingFields] at h2
        have hsplit := List.mem_filter.mp h2
        refine ⟨e, he, attrs, ?_, ha, hsplit.1, ?_⟩
        · rw [h1, ht]
        · exact Option.isNone_iff_eq_none.mp hsplit.2
    · rw [if_neg hlen] at herr
      cases herr

/-- C7 witness: requesting fields a and x for a posts document whose
only attribute is a yields a 400 with a nonempty error list. -/
theorem C7_witness :
    filterSparseFields [("posts", ["a", "x"])]
      ⟨.single ⟨"posts", some [("a", JSON.null)]⟩, none⟩ =
      .error ⟨400, [("posts", "x")]⟩ ∧
    (⟨400, [("posts", "x")]⟩ : HTTPErrorModel).status = 400 ∧
    (⟨400, [("posts", "x")]⟩ : HTTPErrorModel).errors ≠ [] :=
  have h := C7_sparseFieldErrors [("posts", ["a", "x"])]
    ⟨.single ⟨"posts", some [("a", JSON.null)]⟩, none⟩ (by decide)
  have h2 := h.2 ⟨400, [("posts", "x")]⟩ (by rfl)
  ⟨by rfl, h2.1, h2.2.1⟩

/-- C7 counterexample to the original claim.  With fields[posts]=a,b
and a data array of two posts entries, the first carrying only b (so a
is missing) and the second carrying only a (so b is missing), the
filter does return a 400 — but its Errors list is [("posts", "b")]
alone: the second entry's report overwrote the first entry's in the
type-keyed wrongFields map, so the offending pair ("posts", "a") is not
enumerated even though field a is requested and absent from the first
entry. -/
theorem C7_counterexample :
    filterSparseFields [("posts", ["a", "b"])]
      ⟨.multi [⟨"posts", some [("b", JSON.null)]⟩,
               ⟨"posts", some [("a", JSON.null)]⟩], none⟩ =
      .error ⟨400, [("posts", "b")]⟩ ∧
    ("a" : String) ∈ ["a", "b"] ∧
    assocLookup [("b", JSON.null)] "a" = none ∧
    (("posts", "a") : String × String) ∉ [(("posts" : String), ("b" : String))] :=
  ⟨by rfl, by decide, by rfl, by decide⟩

end Api2go
